import Mathlib

/-!
Verification of the in-memory user CRUD service: the `User` record, the
`InMemoryUserRepository` operations (Create, List, Find, Update, Delete),
and the HTTP handler layer (parameter validation and status-code mapping).

The Go map `map[string]User` is realised as an association list
`List (String × User)`; map indexing, assignment and `delete` become
`mapGet`, `mapInsert` and `mapErase`.  Each mutating repository method is
embedded as an explicit state-passing function returning the error-or-unit
result together with the updated store (the mutex only serialises calls, so
a sequential model captures every execution).
-/

/-- The `User` entity: `ID`, `Name`, `Age` fields of the Go struct. -/
structure User where
  ID : String
  Name : String
  Age : Int
deriving DecidableEq, Repr

/-- The state of `InMemoryUserRepository`: its `users` map, realised as an
association list from id strings to `User` records. -/
abbrev InMemoryUserRepository := List (String × User)

/-- Go map read `repo.users[id]`: the value stored under the first matching
key, if any. -/
def mapGet : InMemoryUserRepository → String → Option User
  | [], _ => none
  | (k, u) :: rest, id => if k = id then some u else mapGet rest id

/-- Go map assignment `repo.users[k] = v`: replace the entry for `k` if
present, otherwise add one. -/
def mapInsert : InMemoryUserRepository → String → User → InMemoryUserRepository
  | [], k, v => [(k, v)]
  | (k', u) :: rest, k, v =>
    if k' = k then (k, v) :: rest else (k', u) :: mapInsert rest k v

/-- Go `delete(repo.users, k)`: remove the entry for `k` (a Go map holds at
most one). -/
def mapErase : InMemoryUserRepository → String → InMemoryUserRepository
  | [], _ => []
  | (k', u) :: rest, k => if k' = k then rest else (k', u) :: mapErase rest k

/-- `Create`: error `"user already exists"` when the id is already a key,
otherwise store the record. -/
def InMemoryUserRepository.Create (repo : InMemoryUserRepository) (user : User) :
    Except String Unit × InMemoryUserRepository :=
  if (mapGet repo user.ID).isSome then (Except.error "user already exists", repo)
  else (Except.ok (), mapInsert repo user.ID user)

/-- The `[]User` slice a `List` call returns. -/
abbrev UserSeq := List User

/-- `List`: collect every stored record; never fails. -/
def InMemoryUserRepository.List (repo : InMemoryUserRepository) :
    Except String UserSeq :=
  Except.ok (repo.map Prod.snd)

/-- `Find`: the record stored under `id`, or error `"user not found"`. -/
def InMemoryUserRepository.Find (repo : InMemoryUserRepository) (id : String) :
    Except String User :=
  match mapGet repo id with
  | none => Except.error "user not found"
  | some user => Except.ok user

/-- `Update`: error `"user not found"` when the id is absent, otherwise
overwrite the stored record with the incoming one. -/
def InMemoryUserRepository.Update (repo : InMemoryUserRepository) (user : User) :
    Except String Unit × InMemoryUserRepository :=
  if (mapGet repo user.ID).isSome then (Except.ok (), mapInsert repo user.ID user)
  else (Except.error "user not found", repo)

/-- `Delete`: error `"user not found"` when the id is absent, otherwise
remove the entry. -/
def InMemoryUserRepository.Delete (repo : InMemoryUserRepository) (id : String) :
    Except String Unit × InMemoryUserRepository :=
  if (mapGet repo id).isSome then (Except.ok (), mapErase repo id)
  else (Except.error "user not found", repo)

example :
    InMemoryUserRepository.Create [] ⟨"1", "Alice", 30⟩ =
      (Except.ok (), [("1", ⟨"1", "Alice", 30⟩)]) := by rfl

example :
    InMemoryUserRepository.Find [("1", ⟨"1", "Alice", 30⟩)] "1" =
      Except.ok ⟨"1", "Alice", 30⟩ := by rfl

/-! ## The HTTP handler layer -/

/-- Digit run of `strconv.Atoi`: accumulate base-10 digits, failing on any
non-digit character. -/
def atoiDigits : List Char → Nat → Option Nat
  | [], acc => some acc
  | c :: rest, acc =>
    if c.isDigit then atoiDigits rest (acc * 10 + (c.toNat - 48)) else none

/-- `strconv.Atoi`: optional single leading sign, at least one digit, no
other characters, and the value must fit in a 64-bit `int` (out-of-range
input is an error in Go). -/
def atoi (s : String) : Option Int :=
  let (neg, digits) : Bool × List Char :=
    match s.data with
    | '-' :: rest => (true, rest)
    | '+' :: rest => (false, rest)
    | l => (false, l)
  match digits with
  | [] => none
  | _ =>
    match atoiDigits digits 0 with
    | none => none
    | some n =>
      let v : Int := if neg then -(n : Int) else (n : Int)
      if -(2 ^ 63) ≤ v ∧ v < 2 ^ 63 then some v else none

/-- The query parameters a handler reads: `r.URL.Query().Get` yields the
empty string for a missing parameter, so each is a plain string. -/
structure Request where
  id : String
  name : String
  age : String
deriving DecidableEq, Repr

/-- The observable HTTP response: status code and body text. -/
structure Response where
  status : Nat
  body : String
deriving DecidableEq, Repr

/-- `http.Error(w, msg, code)`: sets the status code and writes the message
followed by a newline. -/
def httpError (msg : String) (code : Nat) : Response :=
  ⟨code, msg ++ "\n"⟩

/-- JSON escaping of a string value (quote and backslash; the rarer control
and HTML escapes of `encoding/json` do not occur in the properties below). -/
def escapeJson (s : String) : String :=
  String.join (s.data.map fun c =>
    if c = '"' then "\\\"" else if c = '\\' then "\\\\" else String.singleton c)

/-- The JSON object `encoding/json` produces for a `User`. -/
def encodeUser (u : User) : String :=
  "\x7b\"id\":\"" ++ escapeJson u.ID ++ "\",\"name\":\"" ++ escapeJson u.Name ++
    "\",\"age\":" ++ toString u.Age ++ "\x7d"

/-- `createUserHandler`: validate `id`, `name`, `age`; parse `age`; call
`Create`; map errors to 500 and success to 201 with empty body. -/
def createUserHandler (repo : InMemoryUserRepository) (req : Request) :
    Response × InMemoryUserRepository :=
  if req.id = "" ∨ req.name = "" ∨ req.age = "" then
    (httpError "Missing parameters" 400, repo)
  else
    match atoi req.age with
    | none => (httpError "Invalid age parameter" 400, repo)
    | some age =>
      match InMemoryUserRepository.Create repo ⟨req.id, req.name, age⟩ with
      | (Except.error e, repo') => (httpError e 500, repo')
      | (Except.ok _, repo') => (⟨201, ""⟩, repo')

/-- `findUserHandler`: validate `id`; call `Find`; map errors to 404 and
success to 200 with the JSON-encoded record (plus the encoder's newline). -/
def findUserHandler (repo : InMemoryUserRepository) (req : Request) :
    Response × InMemoryUserRepository :=
  if req.id = "" then (httpError "Missing id parameter" 400, repo)
  else
    match InMemoryUserRepository.Find repo req.id with
    | Except.error e => (httpError e 404, repo)
    | Except.ok user => (⟨200, encodeUser user ++ "\n"⟩, repo)

/-- `updateUserHandler`: same validation as create; call `Update`; map
errors to 500 and success to 200 with empty body. -/
def updateUserHandler (repo : InMemoryUserRepository) (req : Request) :
    Response × InMemoryUserRepository :=
  if req.id = "" ∨ req.name = "" ∨ req.age = "" then
    (httpError "Missing parameters" 400, repo)
  else
    match atoi req.age with
    | none => (httpError "Invalid age parameter" 400, repo)
    | some age =>
      match InMemoryUserRepository.Update repo ⟨req.id, req.name, age⟩ with
      | (Except.error e, repo') => (httpError e 500, repo')
      | (Except.ok _, repo') => (⟨200, ""⟩, repo')

/-- `deleteUserHandler`: validate `id`; call `Delete`; map errors to 500 and
success to 200 with empty body. -/
def deleteUserHandler (repo : InMemoryUserRepository) (req : Request) :
    Response × InMemoryUserRepository :=
  if req.id = "" then (httpError "Missing id parameter" 400, repo)
  else
    match InMemoryUserRepository.Delete repo req.id with
    | (Except.error e, repo') => (httpError e 500, repo')
    | (Except.ok _, repo') => (⟨200, ""⟩, repo')

example : atoi "30" = some 30 := by rfl

example : atoi "abc" = none := by rfl

example : atoi "-12" = some (-12) := by rfl

example : atoi "" = none := by rfl

example :
    createUserHandler [] ⟨"1", "Alice", "abc"⟩ =
      (httpError "Invalid age parameter" 400, []) := by rfl

/-- A Go map holds at most one entry per key; on the association-list
realisation this is distinctness of the stored keys. -/
def NodupKeys (repo : InMemoryUserRepository) : Prop :=
  (repo.map Prod.fst).Nodup

/-! ## Lemmas about the map primitives -/

theorem mapGet_mapInsert_self (repo : InMemoryUserRepository) (k : String) (v : User) :
    mapGet (mapInsert repo k v) k = some v := by
  induction repo with
  | nil => simp [mapInsert, mapGet]
  | cons p rest ih =>
    obtain ⟨k₀, u⟩ := p
    by_cases h : k₀ = k
    · simp [mapInsert, h, mapGet]
    · simp [mapInsert, h, mapGet, ih]

theorem mapGet_mapInsert_ne (repo : InMemoryUserRepository) (k k' : String) (v : User)
    (h : k' ≠ k) : mapGet (mapInsert repo k v) k' = mapGet repo k' := by
  have hkk : ¬ k = k' := fun hh => h hh.symm
  induction repo with
  | nil => simp [mapInsert, mapGet, hkk]
  | cons p rest ih =>
    obtain ⟨k₀, u⟩ := p
    by_cases h₀ : k₀ = k
    · subst h₀
      simp [mapInsert, mapGet, hkk]
    · by_cases hk' : k₀ = k'
      · simp [mapInsert, h₀, mapGet, hk', h]
      · simp [mapInsert, h₀, mapGet, hk', ih]

theorem mapGet_eq_none_of_not_mem (repo : InMemoryUserRepository) (k : String)
    (h : k ∉ repo.map Prod.fst) : mapGet repo k = none := by
  induction repo with
  | nil => rfl
  | cons p rest ih =>
    obtain ⟨k₀, u⟩ := p
    simp only [List.map_cons, List.mem_cons, not_or] at h
    have h₀ : ¬ k₀ = k := fun hh => h.1 hh.symm
    simp [mapGet, h₀, ih h.2]

theorem mapGet_mapErase_self (repo : InMemoryUserRepository) (k : String)
    (h : NodupKeys repo) : mapGet (mapErase repo k) k = none := by
  induction repo with
  | nil => rfl
  | cons p rest ih =>
    obtain ⟨k₀, u⟩ := p
    simp only [NodupKeys, List.map_cons, List.nodup_cons] at h
    by_cases h₀ : k₀ = k
    · subst h₀
      simpa [mapErase] using mapGet_eq_none_of_not_mem rest k₀ h.1
    · simp [mapErase, h₀, mapGet, ih h.2]

theorem mem_map_snd_of_mapGet (repo : InMemoryUserRepository) (k : String) (u : User)
    (h : mapGet repo k = some u) : u ∈ repo.map Prod.snd := by
  induction repo with
  | nil => simp [mapGet] at h
  | cons p rest ih =>
    obtain ⟨k₀, u₀⟩ := p
    by_cases h₀ : k₀ = k
    · simp [mapGet, h₀] at h
      simp [h]
    · simp only [mapGet, h₀, if_false] at h
      simp [ih h]

/-! ## Repository-level claims -/

/-- C1: creating a record under a fresh id succeeds, adds exactly that
entry (the new id maps to the record, every other id is unchanged), and a
subsequent `Find` on the new store returns exactly the record. -/
theorem create_then_find_roundtrip (repo : InMemoryUserRepository) (u : User)
    (h : mapGet repo u.ID = none) :
    (InMemoryUserRepository.Create repo u).1 = Except.ok () ∧
    mapGet (InMemoryUserRepository.Create repo u).2 u.ID = some u ∧
    (∀ k, k ≠ u.ID → mapGet (InMemoryUserRepository.Create repo u).2 k = mapGet repo k) ∧
    InMemoryUserRepository.Find (InMemoryUserRepository.Create repo u).2 u.ID =
      Except.ok u := by
  have hins : InMemoryUserRepository.Create repo u = (Except.ok (), mapInsert repo u.ID u) := by
    simp [InMemoryUserRepository.Create, h]
  refine ⟨by simp [hins], by simp [hins, mapGet_mapInsert_self], ?_, ?_⟩
  · intro k hk
    simp [hins, mapGet_mapInsert_ne repo u.ID k u hk]
  · simp [hins, InMemoryUserRepository.Find, mapGet_mapInsert_self]

theorem create_then_find_roundtrip_witness :
    mapGet ([] : InMemoryUserRepository) "1" = none ∧
    InMemoryUserRepository.Find
      (InMemoryUserRepository.Create [] ⟨"1", "Alice", 30⟩).2 "1" =
      Except.ok ⟨"1", "Alice", 30⟩ :=
  ⟨rfl, (create_then_find_roundtrip [] ⟨"1", "Alice", 30⟩ rfl).2.2.2⟩

/-- C2: `Create` with an id already stored fails with the already-exists
error and returns the store completely unchanged. -/
theorem create_duplicate_fails (repo : InMemoryUserRepository) (u v : User)
    (h : mapGet repo u.ID = some v) :
    InMemoryUserRepository.Create repo u = (Except.error "user already exists", repo) := by
  simp [InMemoryUserRepository.Create, h]

theorem create_duplicate_fails_witness :
    mapGet [("1", ⟨"1", "Alice", 30⟩)] "1" = some ⟨"1", "Alice", 30⟩ ∧
    InMemoryUserRepository.Create [("1", ⟨"1", "Alice", 30⟩)] ⟨"1", "Bob", 31⟩ =
      (Except.error "user already exists", [("1", ⟨"1", "Alice", 30⟩)]) :=
  ⟨rfl, create_duplicate_fails [("1", ⟨"1", "Alice", 30⟩)] ⟨"1", "Bob", 31⟩ ⟨"1", "Alice", 30⟩ rfl⟩

/-- C3: on an id that is not a key of the store, `Find` fails with the
not-found error, and `Update` and `Delete` fail likewise leaving the store
unchanged. -/
theorem absent_id_ops_fail (repo : InMemoryUserRepository) (id : String) (u : User)
    (h : mapGet repo id = none) (hu : u.ID = id) :
    InMemoryUserRepository.Find repo id = Except.error "user not found" ∧
    InMemoryUserRepository.Update repo u = (Except.error "user not found", repo) ∧
    InMemoryUserRepository.Delete repo id = (Except.error "user not found", repo) := by
  refine ⟨?_, ?_, ?_⟩
  · simp [InMemoryUserRepository.Find, h]
  · simp [InMemoryUserRepository.Update, hu, h]
  · simp [InMemoryUserRepository.Delete, h]

theorem absent_id_ops_fail_witness :
    mapGet ([] : InMemoryUserRepository) "7" = none ∧
    InMemoryUserRepository.Find ([] : InMemoryUserRepository) "7" =
      Except.error "user not found" :=
  ⟨rfl, (absent_id_ops_fail [] "7" ⟨"7", "Nobody", 0⟩ rfl rfl).1⟩

/-- C4: whenever `Delete` succeeds on a store whose keys are distinct (as
they are in a Go map), `Find` of the deleted id on the resulting store
fails with the not-found error. -/
theorem find_after_delete (repo : InMemoryUserRepository) (id : String)
    (hnd : NodupKeys repo)
    (h : (InMemoryUserRepository.Delete repo id).1 = Except.ok ()) :
    InMemoryUserRepository.Find (InMemoryUserRepository.Delete repo id).2 id =
      Except.error "user not found" := by
  by_cases hex : (mapGet repo id).isSome
  · simp [InMemoryUserRepository.Delete, hex, InMemoryUserRepository.Find,
      mapGet_mapErase_self repo id hnd]
  · simp [InMemoryUserRepository.Delete, hex] at h

theorem find_after_delete_witness :
    NodupKeys [("1", ⟨"1", "Alice", 30⟩)] ∧
    InMemoryUserRepository.Find
      (InMemoryUserRepository.Delete [("1", ⟨"1", "Alice", 30⟩)] "1").2 "1" =
      Except.error "user not found" :=
  ⟨by simp [NodupKeys], find_after_delete [("1", ⟨"1", "Alice", 30⟩)] "1" (by simp [NodupKeys]) rfl⟩

/-- C5: `List` never fails; it returns a sequence holding exactly the
stored records (with the same multiplicities as the map's entries, so each
stored record appears exactly once), containing the record of every key and
empty exactly when the store is empty. -/
theorem list_never_fails_and_complete (repo : InMemoryUserRepository) :
    ∃ l : List User, InMemoryUserRepository.List repo = Except.ok l ∧
      (∀ u : User, l.count u = (repo.map Prod.snd).count u) ∧
      (∀ k u, mapGet repo k = some u → u ∈ l) ∧
      (repo = [] → l = []) := by
  refine ⟨repo.map Prod.snd, rfl, fun _ => rfl, ?_, ?_⟩
  · intro k u h
    exact mem_map_snd_of_mapGet repo k u h
  · intro h
    simp [h]

theorem list_never_fails_and_complete_witness :
    ∃ l : List User,
      InMemoryUserRepository.List [("1", ⟨"1", "Alice", 30⟩)] = Except.ok l ∧
      l.count ⟨"1", "Alice", 30⟩ = 1 := by
  obtain ⟨l, hl, hcount, -, -⟩ :=
    list_never_fails_and_complete [("1", ⟨"1", "Alice", 30⟩)]
  exact ⟨l, hl, by simp [hcount ⟨"1", "Alice", 30⟩]⟩

/-- C6: `Update` of a record whose id is stored succeeds, and afterwards the
stored record under that id equals the incoming record in every field while
every other entry is untouched. -/
theorem update_full_overwrite (repo : InMemoryUserRepository) (u v : User)
    (h : mapGet repo u.ID = some v) :
    (InMemoryUserRepository.Update repo u).1 = Except.ok () ∧
    mapGet (InMemoryUserRepository.Update repo u).2 u.ID = some u ∧
    (∀ k, k ≠ u.ID → mapGet (InMemoryUserRepository.Update repo u).2 k = mapGet repo k) := by
  have hupd : InMemoryUserRepository.Update repo u = (Except.ok (), mapInsert repo u.ID u) := by
    simp [InMemoryUserRepository.Update, h]
  refine ⟨by simp [hupd], by simp [hupd, mapGet_mapInsert_self], ?_⟩
  intro k hk
  simp [hupd, mapGet_mapInsert_ne repo u.ID k u hk]

/-- C7 counterexample: in the request `id="" name="Alice" age="abc"` the
`age` parameter is non-empty and unparseable, yet the create handler
answers with the missing-parameters message, not the invalid-age one,
because the emptiness check runs first. -/
theorem invalid_age_shadowed_by_missing_param :
    ("abc" : String) ≠ "" ∧ atoi "abc" = none ∧
    (createUserHandler [] ⟨"", "Alice", "abc"⟩).1 = httpError "Missing parameters" 400 ∧
    httpError "Missing parameters" 400 ≠ httpError "Invalid age parameter" 400 :=
  ⟨by decide, by rfl, by rfl, by decide⟩

/-- C7 (amended): for the create and update handlers, a request with an
empty `id`, `name`, or `age` is answered 400 with the fixed
missing-parameters message and the store is untouched; a request whose
three parameters are all non-empty but whose `age` does not parse as an
integer is answered 400 with the distinct invalid-age message, again with
the store untouched, so no record is created or modified. -/
theorem handlers_validate_params (repo : InMemoryUserRepository) (req : Request) :
    (req.id = "" ∨ req.name = "" ∨ req.age = "" →
      createUserHandler repo req = (httpError "Missing parameters" 400, repo) ∧
      updateUserHandler repo req = (httpError "Missing parameters" 400, repo)) ∧
    (req.id ≠ "" → req.name ≠ "" → req.age ≠ "" → atoi req.age = none →
      createUserHandler repo req = (httpError "Invalid age parameter" 400, repo) ∧
      updateUserHandler repo req = (httpError "Invalid age parameter" 400, repo)) := by
  constructor
  · intro h
    constructor
    · unfold createUserHandler
      rw [if_pos h]
    · unfold updateUserHandler
      rw [if_pos h]
  · intro h1 h2 h3 h4
    have hcond : ¬ (req.id = "" ∨ req.name = "" ∨ req.age = "") := by
      simp [h1, h2, h3]
    constructor
    · unfold createUserHandler
      rw [if_neg hcond, h4]
    · unfold updateUserHandler
      rw [if_neg hcond, h4]

theorem handlers_validate_params_witness :
    createUserHandler [] ⟨"1", "Alice", "abc"⟩ =
      (httpError "Invalid age parameter" 400, []) ∧
    updateUserHandler [] ⟨"1", "Alice", "abc"⟩ =
      (httpError "Invalid age parameter" 400, []) :=
  (handlers_validate_params [] ⟨"1", "Alice", "abc"⟩).2
    (by decide) (by decide) (by decide) (by rfl)

/-- C8: once validation passes, a failing repository call makes the find
handler answer 404 with the error text while the create, update, and delete
handlers answer 500 with the error text; successful calls give 201 with
empty body for create and 200 with empty body for update and delete. -/
theorem handler_error_status_asymmetry (repo : InMemoryUserRepository) (req : Request) :
    (req.id ≠ "" → ∀ e, InMemoryUserRepository.Find repo req.id = Except.error e →
      findUserHandler repo req = (httpError e 404, repo)) ∧
    (req.id ≠ "" → req.name ≠ "" → req.age ≠ "" →
      ∀ age, atoi req.age = some age →
        (∀ e repo', InMemoryUserRepository.Create repo ⟨req.id, req.name, age⟩ =
            (Except.error e, repo') →
          createUserHandler repo req = (httpError e 500, repo')) ∧
        (∀ repo', InMemoryUserRepository.Create repo ⟨req.id, req.name, age⟩ =
            (Except.ok (), repo') →
          createUserHandler repo req = (⟨201, ""⟩, repo')) ∧
        (∀ e repo', InMemoryUserRepository.Update repo ⟨req.id, req.name, age⟩ =
            (Except.error e, repo') →
          updateUserHandler repo req = (httpError e 500, repo')) ∧
        (∀ repo', InMemoryUserRepository.Update repo ⟨req.id, req.name, age⟩ =
            (Except.ok (), repo') →
          updateUserHandler repo req = (⟨200, ""⟩, repo'))) ∧
    (req.id ≠ "" →
      (∀ e repo', InMemoryUserRepository.Delete repo req.id = (Except.error e, repo') →
        deleteUserHandler repo req = (httpError e 500, repo')) ∧
      (∀ repo', InMemoryUserRepository.Delete repo req.id = (Except.ok (), repo') →
        deleteUserHandler repo req = (⟨200, ""⟩, repo'))) := by
  refine ⟨?_, ?_, ?_⟩
  · intro h1 e he
    unfold findUserHandler
    rw [if_neg h1, he]
  · intro h1 h2 h3 age hage
    have hcond : ¬ (req.id = "" ∨ req.name = "" ∨ req.age = "") := by
      simp [h1, h2, h3]
    refine ⟨?_, ?_, ?_, ?_⟩
    · intro e repo' hop
      unfold createUserHandler
      rw [if_neg hcond]
      simp only [hage, hop]
    · intro repo' hop
      unfold createUserHandler
      rw [if_neg hcond]
      simp only [hage, hop]
    · intro e repo' hop
      unfold updateUserHandler
      rw [if_neg hcond]
      simp only [hage, hop]
    · intro repo' hop
      unfold updateUserHandler
      rw [if_neg hcond]
      simp only [hage, hop]
  · intro h1
    constructor
    · intro e repo' hop
      unfold deleteUserHandler
      rw [if_neg h1, hop]
    · intro repo' hop
      unfold deleteUserHandler
      rw [if_neg h1, hop]

theorem handler_error_status_asymmetry_witness :
    findUserHandler [] ⟨"9", "", ""⟩ = (httpError "user not found" 404, []) ∧
    deleteUserHandler [] ⟨"9", "", ""⟩ = (httpError "user not found" 500, []) :=
  ⟨(handler_error_status_asymmetry [] ⟨"9", "", ""⟩).1 (by decide) "user not found" (by rfl),
   ((handler_error_status_asymmetry [] ⟨"9", "", ""⟩).2.2 (by decide)).1
     "user not found" [] (by rfl)⟩

theorem update_full_overwrite_witness :
    mapGet [("1", ⟨"1", "Alice", 30⟩)] "1" = some ⟨"1", "Alice", 30⟩ ∧
    mapGet (InMemoryUserRepository.Update [("1", ⟨"1", "Alice", 30⟩)] ⟨"1", "Bob", 31⟩).2 "1" =
      some ⟨"1", "Bob", 31⟩ :=
  ⟨rfl, (update_full_overwrite [("1", ⟨"1", "Alice", 30⟩)] ⟨"1", "Bob", 31⟩
    ⟨"1", "Alice", 30⟩ rfl).2.1⟩

/-! ## Sequences of repository operations -/

/-- A mutating repository call issued by a client. -/
inductive RepoOp where
  | create (user : User)
  | update (user : User)
  | delete (id : String)
deriving Repr

/-- Run a sequence of repository calls sequentially (as the mutex
serialises them), returning the final store together with the number of
successful `Create` calls and of successful `Delete` calls. -/
def runTrace : InMemoryUserRepository → List RepoOp → InMemoryUserRepository × Nat × Nat
  | repo, [] => (repo, 0, 0)
  | repo, RepoOp.create u :: ops =>
    match InMemoryUserRepository.Create repo u with
    | (Except.ok _, repo') =>
      let t := runTrace repo' ops
      (t.1, t.2.1 + 1, t.2.2)
    | (Except.error _, repo') => runTrace repo' ops
  | repo, RepoOp.update u :: ops =>
    runTrace (InMemoryUserRepository.Update repo u).2 ops
  | repo, RepoOp.delete id :: ops =>
    match InMemoryUserRepository.Delete repo id with
    | (Except.ok _, repo') =>
      let t := runTrace repo' ops
      (t.1, t.2.1, t.2.2 + 1)
    | (Except.error _, repo') => runTrace repo' ops

theorem length_mapInsert_of_absent (repo : InMemoryUserRepository) (k : String) (v : User)
    (h : mapGet repo k = none) : (mapInsert repo k v).length = repo.length + 1 := by
  induction repo with
  | nil => rfl
  | cons p rest ih =>
    obtain ⟨k₀, u⟩ := p
    by_cases h₀ : k₀ = k
    · simp [mapGet, h₀] at h
    · simp only [mapGet, h₀, if_false] at h
      simp [mapInsert, h₀, ih h]

theorem length_mapInsert_of_present (repo : InMemoryUserRepository) (k : String) (v : User)
    (h : (mapGet repo k).isSome) : (mapInsert repo k v).length = repo.length := by
  induction repo with
  | nil => simp [mapGet] at h
  | cons p rest ih =>
    obtain ⟨k₀, u⟩ := p
    by_cases h₀ : k₀ = k
    · simp [mapInsert, h₀]
    · simp only [mapGet, h₀, if_false] at h
      simp [mapInsert, h₀, ih h]

theorem length_mapErase_of_present (repo : InMemoryUserRepository) (k : String)
    (h : (mapGet repo k).isSome) : (mapErase repo k).length + 1 = repo.length := by
  induction repo with
  | nil => simp [mapGet] at h
  | cons p rest ih =>
    obtain ⟨k₀, u⟩ := p
    by_cases h₀ : k₀ = k
    · simp [mapErase, h₀]
    · simp only [mapGet, h₀, if_false] at h
      simp [mapErase, h₀, ih h]

theorem runTrace_length (ops : List RepoOp) (repo : InMemoryUserRepository) :
    (runTrace repo ops).1.length + (runTrace repo ops).2.2 =
      repo.length + (runTrace repo ops).2.1 := by
  induction ops generalizing repo with
  | nil => simp [runTrace]
  | cons op ops ih =>
    cases op with
    | create u =>
      by_cases hex : (mapGet repo u.ID).isSome
      · simp only [runTrace, InMemoryUserRepository.Create, hex, if_true]
        exact ih repo
      · have hmg : mapGet repo u.ID = none := by
          cases hmg : mapGet repo u.ID with
          | none => rfl
          | some w => simp [hmg] at hex
        simp only [runTrace, InMemoryUserRepository.Create, hmg, Option.isSome_none,
          Bool.false_eq_true, if_false]
        have := ih (mapInsert repo u.ID u)
        have hlen := length_mapInsert_of_absent repo u.ID u hmg
        omega
    | update u =>
      simp only [runTrace]
      have := ih (InMemoryUserRepository.Update repo u).2
      have hsame : (InMemoryUserRepository.Update repo u).2.length = repo.length := by
        by_cases hex : (mapGet repo u.ID).isSome
        · simp [InMemoryUserRepository.Update, hex,
            length_mapInsert_of_present repo u.ID u hex]
        · simp [InMemoryUserRepository.Update, hex]
      omega
    | delete id =>
      by_cases hex : (mapGet repo id).isSome
      · simp only [runTrace, InMemoryUserRepository.Delete, hex, if_true]
        have := ih (mapErase repo id)
        have hlen := length_mapErase_of_present repo id hex
        omega
      · simp only [runTrace, InMemoryUserRepository.Delete, hex, if_false]
        exact ih repo

/-- C9: after any sequence of repository calls starting from the empty
store, the sequence `List` returns has length equal to the number of
successful `Create` calls minus the number of successful `Delete` calls. -/
theorem list_length_eq_creates_sub_deletes (ops : List RepoOp) :
    ∃ l : List User,
      InMemoryUserRepository.List (runTrace [] ops).1 = Except.ok l ∧
      (l.length : Int) =
        ((runTrace [] ops).2.1 : Int) - ((runTrace [] ops).2.2 : Int) := by
  refine ⟨((runTrace [] ops).1).map Prod.snd, rfl, ?_⟩
  have h := runTrace_length ops []
  simp only [List.length_map]
  simp only [List.length_nil, Nat.zero_add] at h
  omega

theorem list_length_eq_creates_sub_deletes_witness :
    ∃ l : List User,
      InMemoryUserRepository.List
        (runTrace [] [RepoOp.create ⟨"1", "Alice", 30⟩, RepoOp.create ⟨"1", "Bob", 31⟩,
          RepoOp.delete "1"]).1 = Except.ok l ∧
      (l.length : Int) =
        ((runTrace [] [RepoOp.create ⟨"1", "Alice", 30⟩, RepoOp.create ⟨"1", "Bob", 31⟩,
          RepoOp.delete "1"]).2.1 : Int) -
        ((runTrace [] [RepoOp.create ⟨"1", "Alice", 30⟩, RepoOp.create ⟨"1", "Bob", 31⟩,
          RepoOp.delete "1"]).2.2 : Int) :=
  list_length_eq_creates_sub_deletes
    [RepoOp.create ⟨"1", "Alice", 30⟩, RepoOp.create ⟨"1", "Bob", 31⟩, RepoOp.delete "1"]

/-! ## The key/ID invariant -/

/-- Every entry of the store keys a record by that record's own `ID`. -/
def KeysMatch (repo : InMemoryUserRepository) : Prop :=
  ∀ p ∈ repo, (Prod.snd p).ID = p.1

theorem keysMatch_mapInsert (repo : InMemoryUserRepository) (v : User)
    (h : KeysMatch repo) : KeysMatch (mapInsert repo v.ID v) := by
  induction repo with
  | nil =>
    intro p hp
    simp only [mapInsert, List.mem_singleton] at hp
    simp [hp]
  | cons q rest ih =>
    obtain ⟨k₀, u⟩ := q
    have hrest : KeysMatch rest := fun p hp => h p (List.mem_cons_of_mem _ hp)
    intro p hp
    by_cases h₀ : k₀ = v.ID
    · simp only [mapInsert, h₀, if_true, List.mem_cons] at hp
      rcases hp with hp | hp
      · simp [hp]
      · exact hrest p hp
    · simp only [mapInsert, h₀, if_false, List.mem_cons] at hp
      rcases hp with hp | hp
      · exact hp ▸ h (k₀, u) (List.mem_cons_self _ _)
      · exact ih hrest p hp

theorem mem_of_mem_mapErase (repo : InMemoryUserRepository) (k : String)
    (p : String × User) (hp : p ∈ mapErase repo k) : p ∈ repo := by
  induction repo with
  | nil => simp [mapErase] at hp
  | cons q rest ih =>
    obtain ⟨k₀, u⟩ := q
    by_cases h₀ : k₀ = k
    · simp only [mapErase, h₀, if_true] at hp
      exact List.mem_cons_of_mem _ hp
    · simp only [mapErase, h₀, if_false, List.mem_cons] at hp
      rcases hp with hp | hp
      · simp [hp]
      · exact List.mem_cons_of_mem _ (ih hp)

theorem mapGet_mem (repo : InMemoryUserRepository) (k : String) (u : User)
    (h : mapGet repo k = some u) : (k, u) ∈ repo := by
  induction repo with
  | nil => simp [mapGet] at h
  | cons q rest ih =>
    obtain ⟨k₀, u₀⟩ := q
    by_cases h₀ : k₀ = k
    · subst h₀
      simp [mapGet] at h
      simp [h]
    · simp only [mapGet, h₀, if_false] at h
      exact List.mem_cons_of_mem _ (ih h)

theorem keysMatch_runTrace (ops : List RepoOp) (repo : InMemoryUserRepository)
    (h : KeysMatch repo) : KeysMatch (runTrace repo ops).1 := by
  induction ops generalizing repo with
  | nil => exact h
  | cons op ops ih =>
    cases op with
    | create u =>
      by_cases hex : (mapGet repo u.ID).isSome
      · simp only [runTrace, InMemoryUserRepository.Create, hex, if_true]
        exact ih repo h
      · have hmg : mapGet repo u.ID = none := by
          cases hmg : mapGet repo u.ID with
          | none => rfl
          | some w => simp [hmg] at hex
        simp only [runTrace, InMemoryUserRepository.Create, hmg, Option.isSome_none,
          Bool.false_eq_true, if_false]
        exact ih _ (keysMatch_mapInsert repo u h)
    | update u =>
      simp only [runTrace]
      apply ih
      by_cases hex : (mapGet repo u.ID).isSome
      · simp only [InMemoryUserRepository.Update, hex, if_true]
        exact keysMatch_mapInsert repo u h
      · simp only [InMemoryUserRepository.Update, hex, Bool.false_eq_true, if_false]
        exact h
    | delete id =>
      by_cases hex : (mapGet repo id).isSome
      · simp only [runTrace, InMemoryUserRepository.Delete, hex, if_true]
        exact ih _ (fun p hp => h p (mem_of_mem_mapErase repo id p hp))
      · simp only [runTrace, InMemoryUserRepository.Delete, hex, Bool.false_eq_true,
          if_false]
        exact ih repo h

/-- C10: in every store reachable from the empty one by Create, Update and
Delete calls, each entry's key equals the `ID` field of the record stored
under it, so a record returned by `Find` always carries the id it was
looked up by. -/
theorem reachable_key_matches_record_id (ops : List RepoOp) :
    (∀ p ∈ (runTrace [] ops).1, (Prod.snd p).ID = p.1) ∧
    (∀ id u, InMemoryUserRepository.Find (runTrace [] ops).1 id = Except.ok u →
      u.ID = id) := by
  have hkm : KeysMatch (runTrace [] ops).1 :=
    keysMatch_runTrace ops [] (by intro p hp; simp at hp)
  refine ⟨hkm, ?_⟩
  intro id u hf
  unfold InMemoryUserRepository.Find at hf
  cases hmg : mapGet (runTrace [] ops).1 id with
  | none =>
    rw [hmg] at hf
    simp at hf
  | some v =>
    rw [hmg] at hf
    have hv : v = u := by simpa using hf
    have hm := hkm (id, v) (mapGet_mem _ id v hmg)
    rw [← hv]
    exact hm

theorem reachable_key_matches_record_id_witness :
    InMemoryUserRepository.Find (runTrace [] [RepoOp.create ⟨"1", "Alice", 30⟩]).1 "1" =
      Except.ok ⟨"1", "Alice", 30⟩ ∧
    (User.mk "1" "Alice" 30).ID = "1" :=
  ⟨rfl, (reachable_key_matches_record_id [RepoOp.create ⟨"1", "Alice", 30⟩]).2 "1"
    ⟨"1", "Alice", 30⟩ rfl⟩
